import Mathlib

/-!
Shallow embedding of the Progol quiniela generator repository
(`quiniela_generator.py`, `scraper.py`, `database.py`) in Lean 4.

Randomness is modelled by explicit oracle streams: `random.choice` over a
list of length `n` consumes one natural number `k` and picks index `k % n`;
`random.random()` consumes one rational in `[0,1)`.  All claims quantify
over every possible oracle stream, which covers every behaviour of the
Python pseudo-random generator.
-/

set_option autoImplicit false

namespace Progol

/-- A match record, as built by the scraper / consumed by the generator.
`fecha` is `Option` because `partido.get('fecha', 'Sin fecha')` tolerates a
missing key. -/
structure Partido where
  «local» : String
  visitante : String
  fecha : Option String
deriving DecidableEq, Repr

/-- The three outcomes, keys of `self.predicciones`. -/
inductive Prediccion where
  | Local
  | Empate
  | Visitante
deriving DecidableEq, Repr

/-- The `codigo` field of the static `predicciones` table. -/
def Prediccion.codigo : Prediccion → String
  | .Local => "1"
  | .Empate => "X"
  | .Visitante => "2"

/-- The `simbolo` field of the static `predicciones` table. -/
def Prediccion.simbolo : Prediccion → String
  | .Local => "🏠"
  | .Empate => "🤝"
  | .Visitante => "✈️"

/-- `list(self.predicciones.keys())`, in insertion order. -/
def prediccionKeys : List Prediccion := [.Local, .Empate, .Visitante]

/-- One row of a quiniela, the `resultado` dict built per match. -/
structure Resultado where
  partido : Nat
  «local» : String
  visitante : String
  fecha : String
  prediccion : Prediccion
  codigo : String
  simbolo : String
deriving DecidableEq, Repr

/-- Build the `resultado` dict for match number `i` (0-based) from the
match record and the chosen prediction. -/
def mkResultado (i : Nat) (p : Partido) (pred : Prediccion) : Resultado :=
  { partido := i + 1
    «local» := p.«local»
    visitante := p.visitante
    fecha := p.fecha.getD "Sin fecha"
    prediccion := pred
    codigo := pred.codigo
    simbolo := pred.simbolo }

/-- `random.choice` over `prediccionKeys`: the oracle value `k` picks
index `k % 3`. -/
def choicePrediccion (k : Nat) : Prediccion :=
  prediccionKeys.get ⟨k % 3, Nat.mod_lt k (by decide)⟩

/-- The `for i, partido in enumerate(partidos[:14])` loop shared by
`_generar_quiniela_individual` and `generar_quiniela_con_tendencia`:
`i` is the running index and `pick i` the prediction chosen for match
`i` (the two callers differ only in how the prediction is drawn). -/
def quinielaAux (pick : Nat → Prediccion) : Nat → List Partido → List Resultado
  | _, [] => []
  | i, p :: ps => mkResultado i p (pick i) :: quinielaAux pick (i + 1) ps

/-- `QuinielaGenerator._generar_quiniela_individual`. -/
def generarQuinielaIndividual (rand : Nat → Nat) (partidos : List Partido) : List Resultado :=
  quinielaAux (fun i => choicePrediccion (rand i)) 0 (partidos.take 14)

/-- `QuinielaGenerator.generar_quinielas`: empty input short-circuits to
`[]`; otherwise one slip per `range(cantidad)` iteration, slip `j` using
the oracle slice `rand j`. -/
def generar_quinielas (rand : Nat → Nat → Nat) (partidos : List Partido) (cantidad : Nat) :
    List (List Resultado) :=
  if partidos.isEmpty then []
  else (List.range cantidad).map fun j => generarQuinielaIndividual (rand j) partidos

@[simp]
theorem length_quinielaAux (pick : Nat → Prediccion) (i : Nat) (l : List Partido) :
    (quinielaAux pick i l).length = l.length := by
  induction l generalizing i with
  | nil => rfl
  | cons p ps ih => simp [quinielaAux, ih]

theorem getElem?_quinielaAux (pick : Nat → Prediccion) (i j : Nat) (l : List Partido) :
    (quinielaAux pick i l)[j]? = (l[j]?).map fun p => mkResultado (i + j) p (pick (i + j)) := by
  induction l generalizing i j with
  | nil => simp [quinielaAux]
  | cons p ps ih =>
    cases j with
    | zero => simp [quinielaAux]
    | succ j =>
      have harg : i + 1 + j = i + (j + 1) := by omega
      simp only [quinielaAux, List.getElem?_cons_succ, ih (i + 1) j, harg]

theorem getElem?_quinielaAux_take (pick : Nat → Prediccion) (partidos : List Partido) (j : Nat)
    (hj : j < 14) :
    (quinielaAux pick 0 (partidos.take 14))[j]? =
      (partidos[j]?).map fun p => mkResultado j p (pick j) := by
  rw [getElem?_quinielaAux, List.getElem?_take, if_pos hj]
  simp

theorem length_generarQuinielaIndividual (rand : Nat → Nat) (partidos : List Partido) :
    (generarQuinielaIndividual rand partidos).length = min partidos.length 14 := by
  simp [generarQuinielaIndividual, Nat.min_comm]

theorem prediccion_mem_keys (r : Resultado) : r.prediccion ∈ prediccionKeys := by
  cases h : r.prediccion <;> simp [prediccionKeys]

/-- The `probabilidades` dict of `generar_quiniela_con_tendencia` combined
with the `probabilidades.get(tendencia, probabilidades['local'])` lookup.
Python float literals `0.5, 0.25, 0.4, 0.3` denote these rationals
exactly. -/
def probabilidades (tendencia : String) : ℚ × ℚ × ℚ :=
  if tendencia = "local" then (1/2, 1/4, 1/4)
  else if tendencia = "visitante" then (1/4, 1/4, 1/2)
  else if tendencia = "empate" then (3/10, 2/5, 3/10)
  else (1/2, 1/4, 1/4)

/-- The threshold selection on `rand_val = random.random()`:
`Local` below `prob['Local']`, `Empate` below
`prob['Local'] + prob['Empate']`, else `Visitante`. -/
def seleccionSesgada (prob : ℚ × ℚ × ℚ) (r : ℚ) : Prediccion :=
  if r < prob.1 then .Local
  else if r < prob.1 + prob.2.1 then .Empate
  else .Visitante

/-- `QuinielaGenerator.generar_quiniela_con_tendencia`; `randChoice` is
the oracle for the `equilibrada` delegation, `randReal i` the
`random.random()` value consumed at match `i` otherwise. -/
def generar_quiniela_con_tendencia (randChoice : Nat → Nat) (randReal : Nat → ℚ)
    (partidos : List Partido) (tendencia : String) : List Resultado :=
  if tendencia = "equilibrada" then generarQuinielaIndividual randChoice partidos
  else
    quinielaAux (fun i => seleccionSesgada (probabilidades tendencia) (randReal i)) 0
      (partidos.take 14)

/-- The `predicciones_count.get(pred, 0) + 1` dict update of
`calcular_estadisticas_quiniela`, on an insertion-ordered association
list with unique keys (Python dict semantics). -/
def incrCount : List (Prediccion × Nat) → Prediccion → List (Prediccion × Nat)
  | [], k => [(k, 1)]
  | (a, n) :: rest, k => if a = k then (a, n + 1) :: rest else (a, n) :: incrCount rest k

/-- The statistics record returned by `calcular_estadisticas_quiniela`;
the two maps are insertion-ordered association lists, percentages are
exact rationals in place of Python floats. -/
structure Estadisticas where
  total_partidos : Nat
  predicciones : List (Prediccion × Nat)
  porcentajes : List (Prediccion × ℚ)
deriving DecidableEq, Repr

/-- `QuinielaGenerator.calcular_estadisticas_quiniela`. -/
def calcular_estadisticas_quiniela (quiniela : List Resultado) : Estadisticas :=
  let total_partidos := quiniela.length
  let predicciones_count := quiniela.foldl (fun m r => incrCount m r.prediccion) []
  { total_partidos := total_partidos
    predicciones := predicciones_count
    porcentajes :=
      predicciones_count.map fun kv => (kv.1, ((kv.2 : ℚ) / (total_partidos : ℚ)) * 100) }

theorem sum_incrCount (m : List (Prediccion × Nat)) (k : Prediccion) :
    ((incrCount m k).map Prod.snd).sum = (m.map Prod.snd).sum + 1 := by
  induction m with
  | nil => simp [incrCount]
  | cons a rest ih =>
    obtain ⟨a, n⟩ := a
    by_cases h : a = k <;> (simp [incrCount, h, ih]; omega)

theorem keys_incrCount (m : List (Prediccion × Nat)) (k q : Prediccion) :
    q ∈ (incrCount m k).map Prod.fst ↔ (q = k ∨ q ∈ m.map Prod.fst) := by
  induction m with
  | nil => simp [incrCount]
  | cons a rest ih =>
    obtain ⟨a, n⟩ := a
    by_cases h : a = k <;> simp [incrCount, h, ih]
    tauto

theorem sum_countFold (quiniela : List Resultado) (m : List (Prediccion × Nat)) :
    ((quiniela.foldl (fun m r => incrCount m r.prediccion) m).map Prod.snd).sum =
      (m.map Prod.snd).sum + quiniela.length := by
  induction quiniela generalizing m with
  | nil => simp
  | cons r rest ih => simp [List.foldl_cons, ih, sum_incrCount]; omega

theorem keys_countFold (quiniela : List Resultado) (m : List (Prediccion × Nat)) (q : Prediccion) :
    q ∈ (quiniela.foldl (fun m r => incrCount m r.prediccion) m).map Prod.fst ↔
      (q ∈ m.map Prod.fst ∨ q ∈ quiniela.map Resultado.prediccion) := by
  induction quiniela generalizing m with
  | nil => simp
  | cons r rest ih =>
    simp only [List.foldl_cons, ih, List.map_cons, List.mem_cons, keys_incrCount]
    tauto

/-- C1: `generar_quinielas` on an empty match list returns `[]`; on a
non-empty list it returns exactly `cantidad` slips, each of length
`min |partidos| 14`, and the entry at 0-based position `i` of any slip
carries `partido = i + 1`, the `i`-th match's home and away names
unchanged, an outcome among `{Local, Empate, Visitante}`, and the code
matching that outcome. -/
theorem claim_C1_generar_quinielas (rand : Nat → Nat → Nat) (partidos : List Partido)
    (cantidad : Nat) :
    (partidos = [] → generar_quinielas rand partidos cantidad = []) ∧
    (partidos ≠ [] →
      (generar_quinielas rand partidos cantidad).length = cantidad ∧
      ∀ q ∈ generar_quinielas rand partidos cantidad,
        q.length = min partidos.length 14 ∧
        ∀ (i : Nat) (r : Resultado) (p : Partido),
          q[i]? = some r → partidos[i]? = some p →
          r.partido = i + 1 ∧
          r.«local» = p.«local» ∧
          r.visitante = p.visitante ∧
          r.prediccion ∈ prediccionKeys ∧
          r.codigo = r.prediccion.codigo) := by
  constructor
  · intro h; simp [generar_quinielas, h]
  · intro h
    have hne : partidos.isEmpty = false := by
      cases partidos with
      | nil => exact absurd rfl h
      | cons a l => rfl
    refine ⟨by simp [generar_quinielas, hne], ?_⟩
    intro q hq
    simp only [generar_quinielas, hne, Bool.false_eq_true, if_false, List.mem_map,
      List.mem_range] at hq
    obtain ⟨j, -, rfl⟩ := hq
    refine ⟨length_generarQuinielaIndividual _ _, ?_⟩
    intro i r p hr hp
    have hi14 : i < 14 := by
      have hlt : i < (generarQuinielaIndividual (rand j) partidos).length :=
        (List.getElem?_eq_some_iff.mp hr).1
      rw [length_generarQuinielaIndividual] at hlt
      omega
    rw [show generarQuinielaIndividual (rand j) partidos =
          quinielaAux (fun k => choicePrediccion (rand j k)) 0 (partidos.take 14) from rfl,
        getElem?_quinielaAux_take _ partidos i hi14, hp] at hr
    simp only [Option.map_some', Option.some.injEq] at hr
    rw [← hr]
    exact ⟨rfl, rfl, rfl, prediccion_mem_keys _, rfl⟩

/-- Witness for C1 at a concrete one-match list. -/
theorem claim_C1_generar_quinielas_witness :
    ([⟨"América", "Chivas", none⟩] : List Partido) ≠ [] ∧
    (generar_quinielas (fun _ _ => 0) [⟨"América", "Chivas", none⟩] 1).length = 1 :=
  ⟨by decide,
    ((claim_C1_generar_quinielas (fun _ _ => 0) [⟨"América", "Chivas", none⟩] 1).2
      (by decide)).1⟩

/-- C3: for any bias other than `equilibrada`, the probability triples are
the three fixed ones summing to `1`, an unrecognized bias falls back to
the `local` triple, and each entry's outcome comes from the threshold
rule `Local` if `r < p(Local)`, else `Empate` if
`r < p(Local) + p(Empate)`, else `Visitante`. -/
theorem claim_C3_generar_quiniela_con_tendencia (randChoice : Nat → Nat) (randReal : Nat → ℚ)
    (partidos : List Partido) (tendencia : String) (h : tendencia ≠ "equilibrada") :
    probabilidades "local" = (1/2, 1/4, 1/4) ∧
    probabilidades "visitante" = (1/4, 1/4, 1/2) ∧
    probabilidades "empate" = (3/10, 2/5, 3/10) ∧
    (probabilidades tendencia).1 + (probabilidades tendencia).2.1 +
      (probabilidades tendencia).2.2 = 1 ∧
    (tendencia ∉ (["local", "visitante", "empate"] : List String) →
      probabilidades tendencia = probabilidades "local") ∧
    ∀ (i : Nat) (r : Resultado),
      (generar_quiniela_con_tendencia randChoice randReal partidos tendencia)[i]? = some r →
      r.prediccion =
        (if randReal i < (probabilidades tendencia).1 then Prediccion.Local
         else if randReal i < (probabilidades tendencia).1 + (probabilidades tendencia).2.1 then
           Prediccion.Empate
         else Prediccion.Visitante) := by
  refine ⟨by simp [probabilidades], by simp [probabilidades],
    by simp [probabilidades], ?_, ?_, ?_⟩
  · unfold probabilidades; split_ifs <;> norm_num
  · intro hmem
    simp only [List.mem_cons, List.not_mem_nil, or_false, not_or] at hmem
    obtain ⟨h1, h2, h3⟩ := hmem
    simp [probabilidades, h1, h2, h3]
  · intro i r hr
    simp only [generar_quiniela_con_tendencia, if_neg h] at hr
    by_cases hi : i < 14
    · rw [getElem?_quinielaAux_take _ partidos i hi] at hr
      cases hp : partidos[i]? with
      | none => rw [hp] at hr; exact Option.noConfusion hr
      | some p =>
        rw [hp] at hr
        simp only [Option.map_some', Option.some.injEq] at hr
        rw [← hr]
        rfl
    · exfalso
      have hnone : (quinielaAux
          (fun k => seleccionSesgada (probabilidades tendencia) (randReal k)) 0
          (partidos.take 14))[i]? = none := by
        apply List.getElem?_eq_none
        have := List.length_take_le 14 partidos
        rw [length_quinielaAux]
        omega
      rw [hnone] at hr
      exact Option.noConfusion hr

/-- Witness for C3 at the `local` bias. -/
theorem claim_C3_generar_quiniela_con_tendencia_witness :
    ("local" : String) ≠ "equilibrada" ∧ probabilidades "local" = (1/2, 1/4, 1/4) :=
  ⟨by decide,
    (claim_C3_generar_quiniela_con_tendencia (fun _ => 0) (fun _ => 0) [] "local"
      (by decide)).1⟩

/-- C5: `calcular_estadisticas_quiniela` returns `total = len(S)`,
per-outcome counts summing to `len(S)`, percentage `count/total * 100`
for each recorded outcome, and both maps mention exactly the outcomes
present in the slip (absent outcomes are omitted, not zero-filled). -/
theorem claim_C5_calcular_estadisticas (quiniela : List Resultado) :
    (calcular_estadisticas_quiniela quiniela).total_partidos = quiniela.length ∧
    ((calcular_estadisticas_quiniela quiniela).predicciones.map Prod.snd).sum =
      quiniela.length ∧
    (calcular_estadisticas_quiniela quiniela).porcentajes =
      (calcular_estadisticas_quiniela quiniela).predicciones.map
        (fun kv => (kv.1, ((kv.2 : ℚ) / (quiniela.length : ℚ)) * 100)) ∧
    (∀ q : Prediccion,
      q ∈ (calcular_estadisticas_quiniela quiniela).predicciones.map Prod.fst ↔
        q ∈ quiniela.map Resultado.prediccion) ∧
    (∀ q : Prediccion,
      q ∈ (calcular_estadisticas_quiniela quiniela).porcentajes.map Prod.fst ↔
        q ∈ quiniela.map Resultado.prediccion) := by
  refine ⟨rfl, ?_, rfl, ?_, ?_⟩
  · simpa using sum_countFold quiniela []
  · intro q
    simpa using keys_countFold quiniela [] q
  · intro q
    have hmapmap : (calcular_estadisticas_quiniela quiniela).porcentajes.map Prod.fst =
        (calcular_estadisticas_quiniela quiniela).predicciones.map Prod.fst := by
      simp [calcular_estadisticas_quiniela, List.map_map, Function.comp]
    rw [hmapmap]
    simpa using keys_countFold quiniela [] q

/-- Witness for C5 at a concrete one-entry slip. -/
theorem claim_C5_calcular_estadisticas_witness :
    (calcular_estadisticas_quiniela
      [mkResultado 0 ⟨"América", "Chivas", none⟩ Prediccion.Local]).total_partidos = 1 :=
  (claim_C5_calcular_estadisticas
    [mkResultado 0 ⟨"América", "Chivas", none⟩ Prediccion.Local]).1

/-- C10: the statistics of an empty slip are total `0` and two empty maps;
the percentage map is built only over outcomes present, so the zero total
is never used as a divisor. -/
theorem claim_C10_estadisticas_vacia :
    calcular_estadisticas_quiniela [] =
      { total_partidos := 0, predicciones := [], porcentajes := [] } := rfl

/-!
### Scraper: `_scrape_with_requests`

The network and HTML layer is abstracted at the regex boundary: the input
is the three candidate pattern groups in their fixed priority order, each
element of a group represented by the raw `(local, visitante)` pairs its
text yields under `re.findall(r'(...)\s+(?:vs|contra)\s+(...)', ...)`,
before `.strip()`.
-/

/-- Python's `str.strip()`: drop leading and trailing whitespace
characters (kernel-computable, unlike `String.trim`). -/
def strip (s : String) : String :=
  ⟨(((s.data.dropWhile Char.isWhitespace).reverse.dropWhile Char.isWhitespace).reverse)⟩

/-- The `partidos.append({...})` body of `_scrape_with_requests`: strip
both captured names, date label `'Próxima jornada'`. -/
def mkPartidoScrape (m : String × String) : Partido :=
  { «local» := strip m.1, visitante := strip m.2, fecha := some "Próxima jornada" }

/-- Processing of one pattern group: each element appends its extracted
pairs in order. -/
def extractGroup (group : List (List (String × String))) : List Partido :=
  group.foldl (fun acc el => acc ++ el.map mkPartidoScrape) []

/-- The `for pattern_group in patterns` loop with its `if partidos: break`
check at the top of each iteration. -/
def scanPatterns (partidos : List Partido) : List (List Partido) → List Partido
  | [] => partidos
  | g :: gs => if partidos.isEmpty then scanPatterns (partidos ++ g) gs else partidos

/-- The validity check of the final filter: both names longer than 2
characters and distinct. -/
def esPartidoValido (p : Partido) : Bool :=
  2 < p.«local».length && 2 < p.visitante.length && p.«local» != p.visitante

/-- The `partidos_validos` loop: keep valid entries, stop as soon as 14
have been collected. -/
def filtrarValidos (acc : List Partido) : List Partido → List Partido
  | [] => acc
  | p :: ps =>
    if esPartidoValido p then
      let acc2 := acc ++ [p]
      if 14 ≤ acc2.length then acc2 else filtrarValidos acc2 ps
    else filtrarValidos acc ps

/-- `PrognolScraper._scrape_with_requests`, abstracted over the network
and HTML layer as described above. -/
def scrape_with_requests (patterns : List (List (List (String × String)))) : List Partido :=
  filtrarValidos [] (scanPatterns [] (patterns.map extractGroup))

/-- Modelled from the spec wording of C2, for refinement comparison with
`scrape_with_requests`: scanning stops at the first pattern group that
produces at least one *valid* pair, and the first 14 valid pairs are
returned. -/
def scrapeSpecC2 (patterns : List (List (List (String × String)))) : List Partido :=
  match (patterns.map extractGroup).find? (fun g => !(g.filter esPartidoValido).isEmpty) with
  | some g => (g.filter esPartidoValido).take 14
  | none => []

theorem scanPatterns_of_ne (partidos : List Partido) (h : partidos.isEmpty = false)
    (gs : List (List Partido)) : scanPatterns partidos gs = partidos := by
  cases gs with
  | nil => rfl
  | cons g gs => simp [scanPatterns, h]

theorem scanPatterns_nil (gs : List (List Partido)) :
    scanPatterns [] gs = (gs.find? (fun g => !g.isEmpty)).getD [] := by
  induction gs with
  | nil => rfl
  | cons g gs ih =>
    rw [scanPatterns]
    simp only [List.isEmpty_nil, if_true, List.nil_append]
    cases hg : g.isEmpty with
    | true =>
      have : g = [] := List.isEmpty_iff.mp hg
      subst this
      simpa [List.find?] using ih
    | false =>
      rw [scanPatterns_of_ne g hg gs]
      simp [List.find?, hg]

theorem filtrarValidos_eq (l : List Partido) (acc : List Partido) (h : acc.length < 14) :
    filtrarValidos acc l = (acc ++ l.filter esPartidoValido).take 14 := by
  induction l generalizing acc with
  | nil =>
    rw [filtrarValidos]
    simp only [List.filter_nil, List.append_nil]
    exact (List.take_of_length_le (by omega)).symm
  | cons p ps ih =>
    rw [filtrarValidos]
    cases hv : esPartidoValido p with
    | false => simp only [Bool.false_eq_true, if_false, List.filter_cons, hv, ih acc h]
    | true =>
      simp only [if_true, List.filter_cons, hv]
      by_cases h14 : 14 ≤ (acc ++ [p]).length
      · rw [if_pos h14]
        have hlen : (acc ++ [p]).length = 14 := by
          simp only [List.length_append, List.length_cons, List.length_nil] at h14 ⊢
          omega
        rw [show acc ++ p :: ps.filter esPartidoValido = (acc ++ [p]) ++ ps.filter esPartidoValido
              by simp]
        rw [List.take_append_of_le_length (by omega)]
        rw [List.take_of_length_le (by omega)]
      · rw [if_neg h14]
        rw [ih (acc ++ [p]) (by simp at h14 ⊢; omega)]
        congr 1
        simp

/-- C2 counterexample: a first pattern group whose only raw pair is
invalid (both names of length 2 and equal) stops the scan before a
second group holding a valid pair, so the code returns `[]` where the
claim's scanning discipline would return that valid pair. -/
theorem claim_C2_counterexample :
    scrape_with_requests [[[("ab", "ab")]], [[("Pumas", "Tigres")]], []] = [] ∧
    scrapeSpecC2 [[[("ab", "ab")]], [[("Pumas", "Tigres")]], []] =
      [{ «local» := "Pumas", visitante := "Tigres", fecha := some "Próxima jornada" }] ∧
    scrape_with_requests [[[("ab", "ab")]], [[("Pumas", "Tigres")]], []] ≠
      scrapeSpecC2 [[[("ab", "ab")]], [[("Pumas", "Tigres")]], []] :=
  ⟨by decide, by decide, by decide⟩

/-- C2 (amended): the candidate groups are tried in the fixed priority
order and scanning stops at the first group producing at least one raw
pair, valid or not; the returned list is then the first 14 of that
group's pairs whose trimmed names are each longer than 2 characters and
whose home differs from away. -/
theorem claim_C2_scrape_with_requests (patterns : List (List (List (String × String)))) :
    scrape_with_requests patterns =
      ((((patterns.map extractGroup).find? (fun g => !g.isEmpty)).getD []).filter
        esPartidoValido).take 14 := by
  rw [scrape_with_requests, scanPatterns_nil, filtrarValidos_eq _ [] (by simp)]
  simp

/-!
### Scraper: `_generate_sample_partidos`
-/

/-- The 18 `equipos_mexicanos`. -/
def equipos_mexicanos : List String :=
  ["América", "Chivas", "Cruz Azul", "Pumas", "Tigres", "Monterrey",
   "Santos", "León", "Atlas", "Necaxa", "Pachuca", "Toluca",
   "Puebla", "Tijuana", "Mazatlán", "Querétaro", "Juárez", "San Luis"]

/-- The 14 `equipos_internacionales`. -/
def equipos_internacionales : List String :=
  ["Barcelona", "Real Madrid", "Manchester United", "Liverpool",
   "Bayern Munich", "PSG", "Juventus", "Inter Milan", "Chelsea",
   "Arsenal", "Manchester City", "Atletico Madrid", "Borussia Dortmund",
   "AC Milan"]

def todos_los_equipos : List String := equipos_mexicanos ++ equipos_internacionales

/-- `random.choice`: the oracle value `k` picks index `k % len(l)`;
`none` models the `IndexError` raised on an empty list. -/
def randomChoice (l : List String) (k : Nat) : Option String := l[k % l.length]?

/-- The match dict appended for slot `i` (0-based). -/
def mkSamplePartido (i : Nat) (loc vis : String) : Partido :=
  { «local» := loc, visitante := vis, fecha := some ("Jornada " ++ toString (i + 1)) }

/-- The `for i in range(14)` loop of `_generate_sample_partidos`:
`n` iterations remain, `i` is the current slot, `pos` the next oracle
position, `todos` the current pool and `usados` the used-team set.  In
the reset branch `disponibles` aliases the pool list itself, so the
`remove(local)` there shrinks `todos` for the rest of the call; in the
ordinary branch `disponibles` is a fresh list comprehension and
`remove(local)` leaves the pool untouched. -/
def samplePartidosAux (stream : Nat → Nat) :
    Nat → Nat → Nat → List String → List String → Option (List Partido)
  | 0, _, _, _, _ => some []
  | n + 1, i, pos, todos, usados =>
    let disponibles := todos.filter (fun e => decide (e ∉ usados))
    if disponibles.length < 2 then
      match randomChoice todos (stream pos) with
      | none => none
      | some loc =>
        let todos1 := todos.erase loc
        match randomChoice todos1 (stream (pos + 1)) with
        | none => none
        | some vis =>
          (samplePartidosAux stream n (i + 1) (pos + 2) todos1 [loc, vis]).map
            (mkSamplePartido i loc vis :: ·)
    else
      match randomChoice disponibles (stream pos) with
      | none => none
      | some loc =>
        match randomChoice (disponibles.erase loc) (stream (pos + 1)) with
        | none => none
        | some vis =>
          (samplePartidosAux stream n (i + 1) (pos + 2) todos (vis :: loc :: usados)).map
            (mkSamplePartido i loc vis :: ·)

/-- `PrognolScraper._generate_sample_partidos`. -/
def generate_sample_partidos (stream : Nat → Nat) : Option (List Partido) :=
  samplePartidosAux stream 14 0 0 todos_los_equipos []

theorem randomChoice_of_pos (l : List String) (k : Nat) (h : 0 < l.length) :
    ∃ x, randomChoice l k = some x ∧ x ∈ l := by
  have hm : k % l.length < l.length := Nat.mod_lt k h
  refine ⟨l[k % l.length], ?_, List.getElem_mem hm⟩
  simp [randomChoice, List.getElem?_eq_getElem hm]

theorem samplePartidosAux_total (stream : Nat → Nat) (n : Nat) :
    ∀ (i pos : Nat) (todos usados : List String), todos.Nodup → n + 1 ≤ todos.length →
    ∃ ps, samplePartidosAux stream n i pos todos usados = some ps ∧
      ps.length = n ∧
      ∀ (j : Nat) (p : Partido), ps[j]? = some p →
        p.«local» ≠ p.visitante ∧ p.fecha = some ("Jornada " ++ toString (i + j + 1)) := by
  induction n with
  | zero =>
    intro i pos todos usados _ _
    exact ⟨[], rfl, rfl, by intro j p hp; simp at hp⟩
  | succ n ih =>
    intro i pos todos usados hnd hlen
    simp only [samplePartidosAux]
    by_cases hreset : (todos.filter (fun e => decide (e ∉ usados))).length < 2
    · rw [if_pos hreset]
      obtain ⟨loc, hloc, hlocmem⟩ := randomChoice_of_pos todos (stream pos) (by omega)
      have hlen1 : (todos.erase loc).length = todos.length - 1 :=
        List.length_erase_of_mem hlocmem
      obtain ⟨vis, hvis, hvismem⟩ :=
        randomChoice_of_pos (todos.erase loc) (stream (pos + 1)) (by omega)
      have hvisne : vis ≠ loc := (hnd.mem_erase_iff.mp hvismem).1
      obtain ⟨rest, hrest, hrlen, hrprop⟩ :=
        ih (i + 1) (pos + 2) (todos.erase loc) [loc, vis] (hnd.erase loc) (by omega)
      simp only [hloc, hvis, hrest, Option.map_some']
      refine ⟨mkSamplePartido i loc vis :: rest, rfl, by simp [hrlen], ?_⟩
      intro j p hp
      cases j with
      | zero =>
        simp only [List.getElem?_cons_zero, Option.some.injEq] at hp
        subst hp
        exact ⟨fun h => hvisne h.symm, by simp [mkSamplePartido]⟩
      | succ j =>
        simp only [List.getElem?_cons_succ] at hp
        obtain ⟨hne, hfecha⟩ := hrprop j p hp
        have harith : i + 1 + j + 1 = i + (j + 1) + 1 := by omega
        rw [harith] at hfecha
        exact ⟨hne, hfecha⟩
    · rw [if_neg hreset]
      have hdnd : (todos.filter (fun e => decide (e ∉ usados))).Nodup := hnd.filter _
      obtain ⟨loc, hloc, hlocmem⟩ :=
        randomChoice_of_pos (todos.filter (fun e => decide (e ∉ usados))) (stream pos)
          (by omega)
      have hlen1 : ((todos.filter (fun e => decide (e ∉ usados))).erase loc).length =
          (todos.filter (fun e => decide (e ∉ usados))).length - 1 :=
        List.length_erase_of_mem hlocmem
      obtain ⟨vis, hvis, hvismem⟩ :=
        randomChoice_of_pos ((todos.filter (fun e => decide (e ∉ usados))).erase loc)
          (stream (pos + 1)) (by omega)
      have hvisne : vis ≠ loc := (hdnd.mem_erase_iff.mp hvismem).1
      obtain ⟨rest, hrest, hrlen, hrprop⟩ :=
        ih (i + 1) (pos + 2) todos (vis :: loc :: usados) hnd (by omega)
      simp only [hloc, hvis, hrest, Option.map_some']
      refine ⟨mkSamplePartido i loc vis :: rest, rfl, by simp [hrlen], ?_⟩
      intro j p hp
      cases j with
      | zero =>
        simp only [List.getElem?_cons_zero, Option.some.injEq] at hp
        subst hp
        exact ⟨fun h => hvisne h.symm, by simp [mkSamplePartido]⟩
      | succ j =>
        simp only [List.getElem?_cons_succ] at hp
        obtain ⟨hne, hfecha⟩ := hrprop j p hp
        have harith : i + 1 + j + 1 = i + (j + 1) + 1 := by omega
        rw [harith] at hfecha
        exact ⟨hne, hfecha⟩

/-- C4: for every oracle stream the synthetic fallback terminates with
exactly 14 pairs, each pair with distinct home and away teams and date
label `"Jornada {i}"` for its 1-based slot `i`; no random choice ever
hits an empty pool thanks to the reset guard. -/
theorem claim_C4_generate_sample_partidos (stream : Nat → Nat) :
    ∃ ps, generate_sample_partidos stream = some ps ∧
      ps.length = 14 ∧
      ∀ (j : Nat) (p : Partido), ps[j]? = some p →
        p.«local» ≠ p.visitante ∧ p.fecha = some ("Jornada " ++ toString (j + 1)) := by
  have hnd : todos_los_equipos.Nodup := by decide
  have hlen : 14 + 1 ≤ todos_los_equipos.length := by decide
  obtain ⟨ps, h1, h2, h3⟩ := samplePartidosAux_total stream 14 0 0 todos_los_equipos [] hnd hlen
  refine ⟨ps, h1, h2, ?_⟩
  intro j p hp
  simpa using h3 j p hp

/-- The 28 team-name occurrences of a generated match list, in order. -/
def nombres : List Partido → List String
  | [] => []
  | p :: ps => p.«local» :: p.visitante :: nombres ps

@[simp]
theorem length_nombres (ps : List Partido) : (nombres ps).length = 2 * ps.length := by
  induction ps with
  | nil => rfl
  | cons p ps ih => simp [nombres, ih]; omega

theorem length_filter_after_picks (todos usados : List String) (loc vis : String)
    (hnd : todos.Nodup)
    (hloc : loc ∈ todos.filter (fun e => decide (e ∉ usados)))
    (hvis : vis ∈ (todos.filter (fun e => decide (e ∉ usados))).erase loc) :
    (todos.filter (fun e => decide (e ∉ vis :: loc :: usados))).length =
      (todos.filter (fun e => decide (e ∉ usados))).length - 2 := by
  have hdnd : (todos.filter (fun e => decide (e ∉ usados))).Nodup := hnd.filter _
  have hfe : ((todos.filter (fun e => decide (e ∉ usados))).erase loc).erase vis =
      todos.filter (fun e => decide (e ∉ vis :: loc :: usados)) := by
    rw [(hdnd.erase loc).erase_eq_filter vis, hdnd.erase_eq_filter loc,
      List.filter_filter, List.filter_filter]
    refine List.filter_congr fun e _ => ?_
    by_cases h1 : e = vis <;> by_cases h2 : e = loc <;> by_cases h3 : e ∈ usados <;>
      simp [h1, h2, h3]
  rw [← hfe]
  have h1 : ((todos.filter (fun e => decide (e ∉ usados))).erase loc).length =
      (todos.filter (fun e => decide (e ∉ usados))).length - 1 :=
    List.length_erase_of_mem hloc
  have h2 : (((todos.filter (fun e => decide (e ∉ usados))).erase loc).erase vis).length =
      ((todos.filter (fun e => decide (e ∉ usados))).erase loc).length - 1 :=
    List.length_erase_of_mem hvis
  omega

theorem samplePartidosAux_nodup (stream : Nat → Nat) (n : Nat) :
    ∀ (i pos : Nat) (todos usados : List String), todos.Nodup →
      2 * n ≤ (todos.filter (fun e => decide (e ∉ usados))).length →
    ∃ ps, samplePartidosAux stream n i pos todos usados = some ps ∧
      ps.length = n ∧ (nombres ps).Nodup ∧ ∀ x ∈ nombres ps, x ∉ usados := by
  induction n with
  | zero =>
    intro i pos todos usados _ _
    exact ⟨[], rfl, rfl, List.nodup_nil, by simp [nombres]⟩
  | succ n ih =>
    intro i pos todos usados hnd hlen
    have hge : ¬ (todos.filter (fun e => decide (e ∉ usados))).length < 2 := by omega
    simp only [samplePartidosAux]
    rw [if_neg hge]
    have hdnd : (todos.filter (fun e => decide (e ∉ usados))).Nodup := hnd.filter _
    obtain ⟨loc, hloc, hlocmem⟩ :=
      randomChoice_of_pos (todos.filter (fun e => decide (e ∉ usados))) (stream pos) (by omega)
    have hlen1 : ((todos.filter (fun e => decide (e ∉ usados))).erase loc).length =
        (todos.filter (fun e => decide (e ∉ usados))).length - 1 :=
      List.length_erase_of_mem hlocmem
    obtain ⟨vis, hvis, hvismem⟩ :=
      randomChoice_of_pos ((todos.filter (fun e => decide (e ∉ usados))).erase loc)
        (stream (pos + 1)) (by omega)
    have hvisne : vis ≠ loc := (hdnd.mem_erase_iff.mp hvismem).1
    have hvismem' : vis ∈ todos.filter (fun e => decide (e ∉ usados)) :=
      (hdnd.mem_erase_iff.mp hvismem).2
    have hlen2 : 2 * n ≤ (todos.filter (fun e => decide (e ∉ vis :: loc :: usados))).length := by
      rw [length_filter_after_picks todos usados loc vis hnd hlocmem hvismem]
      omega
    obtain ⟨rest, hrest, hrlen, hrnd, hrfresh⟩ :=
      ih (i + 1) (pos + 2) todos (vis :: loc :: usados) hnd hlen2
    simp only [hloc, hvis, hrest, Option.map_some']
    have hlocnotin : loc ∉ usados := by
      have := (List.mem_filter.mp hlocmem).2
      simpa using this
    have hvisnotin : vis ∉ usados := by
      have := (List.mem_filter.mp hvismem').2
      simpa using this
    refine ⟨mkSamplePartido i loc vis :: rest, rfl, by simp [hrlen], ?_, ?_⟩
    · show (loc :: vis :: nombres rest).Nodup
      refine List.nodup_cons.mpr ⟨?_, List.nodup_cons.mpr ⟨?_, hrnd⟩⟩
      · simp only [List.mem_cons, not_or]
        refine ⟨fun h => hvisne h.symm, fun h => ?_⟩
        have := hrfresh loc h
        simp at this
      · intro h
        have := hrfresh vis h
        simp at this
    · intro x hx
      rcases (show x = loc ∨ x = vis ∨ x ∈ nombres rest by simpa [nombres, mkSamplePartido,
        List.mem_cons] using hx) with rfl | rfl | hx2
      · exact hlocnotin
      · exact hvisnotin
      · have := hrfresh x hx2
        simp only [List.mem_cons, not_or] at this
        exact this.2.2

/-- C9: for every oracle stream, the 28 team-name occurrences across the
14 synthetic pairs are pairwise distinct: the pool of 32 names loses two
unused names per iteration and so never drops below 2 unused names
within 14 iterations, and both picks of each iteration are drawn from
the not-yet-used names. -/
theorem claim_C9_sample_nombres_distintos (stream : Nat → Nat) :
    ∃ ps, generate_sample_partidos stream = some ps ∧
      ps.length = 14 ∧ (nombres ps).length = 28 ∧ (nombres ps).Nodup := by
  have hnd : todos_los_equipos.Nodup := by decide
  have hlen : 2 * 14 ≤
      (todos_los_equipos.filter (fun e => decide (e ∉ ([] : List String)))).length := by decide
  obtain ⟨ps, h1, h2, h3, -⟩ :=
    samplePartidosAux_nodup stream 14 0 0 todos_los_equipos [] hnd hlen
  exact ⟨ps, h1, h2, by rw [length_nombres, h2], h3⟩

/-!
### Scraper: `get_partidos`

The two scraping strategies are abstracted by their outcomes:
`Except.error` models an exception escaping the strategy call (caught by
the `try`/`except` of `get_partidos`), `Except.ok` its returned list.
-/

/-- `PrognolScraper.get_partidos`: try `_scrape_with_requests`, then
`_scrape_with_trafilatura`, then the synthetic fallback; the synthetic
fallback also answers any caught exception.  A `none` result would model
an exception escaping `get_partidos` itself. -/
def get_partidos (r1 r2 : Except String (List Partido)) (stream : Nat → Nat) :
    Option (List Partido) :=
  match r1 with
  | .error _ => generate_sample_partidos stream
  | .ok p1 =>
    if p1.isEmpty then
      match r2 with
      | .error _ => generate_sample_partidos stream
      | .ok p2 =>
        if p2.isEmpty then generate_sample_partidos stream else some p2
    else some p1

/-- The condition under which the synthetic fallback is reached: an
exception somewhere, or both strategies empty. -/
def fallbackTriggered :
    Except String (List Partido) → Except String (List Partido) → Bool
  | .error _, _ => true
  | .ok p1, .error _ => p1.isEmpty
  | .ok p1, .ok p2 => p1.isEmpty && p2.isEmpty

theorem generate_sample_partidos_total (stream : Nat → Nat) :
    ∃ ps, generate_sample_partidos stream = some ps ∧ ps.length = 14 := by
  have hnd : todos_los_equipos.Nodup := by decide
  obtain ⟨ps, h1, h2, -⟩ :=
    samplePartidosAux_total stream 14 0 0 todos_los_equipos [] hnd (by decide)
  exact ⟨ps, h1, h2⟩

/-- C6: `get_partidos` never propagates an exception — it returns a value
for every strategy outcome — and whenever an exception was raised or
both strategies came back empty, the returned value is the synthetic
list, which has exactly 14 entries. -/
theorem claim_C6_get_partidos (r1 r2 : Except String (List Partido)) (stream : Nat → Nat) :
    ∃ ps, get_partidos r1 r2 stream = some ps ∧
      (fallbackTriggered r1 r2 = true →
        generate_sample_partidos stream = some ps ∧ ps.length = 14) := by
  obtain ⟨sp, hsp, hsplen⟩ := generate_sample_partidos_total stream
  cases r1 with
  | error e => exact ⟨sp, hsp, fun _ => ⟨hsp, hsplen⟩⟩
  | ok p1 =>
    cases hp1 : p1.isEmpty with
    | false =>
      exact ⟨p1, by simp [get_partidos, hp1],
        by cases r2 <;> simp [fallbackTriggered, hp1]⟩
    | true =>
      cases r2 with
      | error e =>
        exact ⟨sp, by simp [get_partidos, hp1, hsp], fun _ => ⟨hsp, hsplen⟩⟩
      | ok p2 =>
        cases hp2 : p2.isEmpty with
        | false =>
          exact ⟨p2, by simp [get_partidos, hp1, hp2],
            by simp [fallbackTriggered, hp1, hp2]⟩
        | true =>
          exact ⟨sp, by simp [get_partidos, hp1, hp2, hsp], fun _ => ⟨hsp, hsplen⟩⟩

/-- Witness for C6: an unreachable source URL (first strategy raises,
second returns nothing). -/
theorem claim_C6_get_partidos_witness :
    fallbackTriggered (Except.error "ConnectionError") (Except.ok []) = true ∧
    ∃ ps,
      get_partidos (Except.error "ConnectionError") (Except.ok []) (fun _ => 0) = some ps ∧
      ps.length = 14 := by
  refine ⟨rfl, ?_⟩
  obtain ⟨ps, h1, h2⟩ :=
    claim_C6_get_partidos (Except.error "ConnectionError") (Except.ok []) (fun _ => 0)
  exact ⟨ps, h1, (h2 rfl).2⟩

/-!
### Database: `database.py`

The PostgreSQL table is modelled as a list of rows with a `SERIAL`
counter; timestamps are opaque naturals supplied by the caller.  The SQL
statements used are simple enough to have a direct list semantics:
`INSERT ... RETURNING id` appends and returns the counter,
`SELECT ... WHERE id = %s` is `find?`, `DELETE ... WHERE id = %s` is a
filter whose `rowcount` is the number of removed rows, and
`ORDER BY fecha_generacion DESC LIMIT %s` is a sort and a `take`.
-/

/-- `QuinielaDatabase.__init__`: `database_url` read from the
environment; persistence is active iff the variable is present. -/
structure QuinielaDatabase where
  database_url : Option String
deriving DecidableEq, Repr

/-- `self.db_available = self.database_url is not None`. -/
def QuinielaDatabase.db_available (db : QuinielaDatabase) : Bool :=
  db.database_url.isSome

/-- One row of the `quinielas` table. -/
structure DBRow where
  id : Nat
  fecha_generacion : Nat
  num_partidos : Nat
  datos : List Resultado
deriving DecidableEq, Repr

/-- The `quinielas` table plus its `SERIAL` id counter. -/
structure DBStore where
  rows : List DBRow
  nextId : Nat
deriving DecidableEq, Repr

/-- `QuinielaDatabase.guardar_quiniela`: no-op returning `None` when the
database is unavailable, otherwise insert and return the new id. -/
def guardar_quiniela (db : QuinielaDatabase) (store : DBStore) (fecha : Nat)
    (quiniela : List Resultado) : Option Nat × DBStore :=
  if db.db_available then
    (some store.nextId,
      { rows := store.rows ++
          [{ id := store.nextId, fecha_generacion := fecha,
             num_partidos := quiniela.length, datos := quiniela }]
        nextId := store.nextId + 1 })
  else (none, store)

/-- `QuinielaDatabase.obtener_quinielas`: most recent first, `LIMIT`. -/
def obtener_quinielas (db : QuinielaDatabase) (store : DBStore) (limite : Nat) :
    List DBRow :=
  if db.db_available then
    ((store.rows.insertionSort
      (fun a b => b.fecha_generacion ≤ a.fecha_generacion)).take limite)
  else []

/-- `QuinielaDatabase.obtener_quiniela_por_id`. -/
def obtener_quiniela_por_id (db : QuinielaDatabase) (store : DBStore) (qid : Nat) :
    Option DBRow :=
  if db.db_available then store.rows.find? (fun r => decide (r.id = qid)) else none

/-- `QuinielaDatabase.eliminar_quiniela`: returns `cur.rowcount > 0` and
the surviving table. -/
def eliminar_quiniela (db : QuinielaDatabase) (store : DBStore) (qid : Nat) :
    Bool × DBStore :=
  if db.db_available then
    (decide ((store.rows.filter (fun r => decide (r.id ≠ qid))).length < store.rows.length),
      { store with rows := store.rows.filter (fun r => decide (r.id ≠ qid)) })
  else (false, store)

/-- The statistics record of `obtener_estadisticas`; `none` dates model
SQL `NULL` (`MIN`/`MAX` over an empty table). -/
structure EstadisticasDB where
  total_quinielas : Nat
  primera_quiniela : Option Nat
  ultima_quiniela : Option Nat
deriving DecidableEq, Repr

/-- SQL `MIN` over the `fecha_generacion` column. -/
def fechaMin : List Nat → Option Nat
  | [] => none
  | f :: fs => some (fs.foldl min f)

/-- SQL `MAX` over the `fecha_generacion` column. -/
def fechaMax : List Nat → Option Nat
  | [] => none
  | f :: fs => some (fs.foldl max f)

/-- `QuinielaDatabase.obtener_estadisticas`. -/
def obtener_estadisticas (db : QuinielaDatabase) (store : DBStore) : EstadisticasDB :=
  if db.db_available then
    { total_quinielas := store.rows.length
      primera_quiniela := fechaMin (store.rows.map DBRow.fecha_generacion)
      ultima_quiniela := fechaMax (store.rows.map DBRow.fecha_generacion) }
  else { total_quinielas := 0, primera_quiniela := none, ultima_quiniela := none }

/-- C7: with no `DATABASE_URL` in the environment, every persistence
operation is a no-op returning its empty/false/`None`/zeroed result and
leaving the store untouched. -/
theorem claim_C7_sin_database_url (db : QuinielaDatabase) (h : db.database_url = none)
    (store : DBStore) (fecha : Nat) (quiniela : List Resultado) (limite qid : Nat) :
    guardar_quiniela db store fecha quiniela = (none, store) ∧
    obtener_quinielas db store limite = [] ∧
    obtener_quiniela_por_id db store qid = none ∧
    eliminar_quiniela db store qid = (false, store) ∧
    obtener_estadisticas db store =
      { total_quinielas := 0, primera_quiniela := none, ultima_quiniela := none } := by
  have hav : db.db_available = false := by
    simp [QuinielaDatabase.db_available, h]
  refine ⟨?_, ?_, ?_, ?_, ?_⟩ <;>
    simp [guardar_quiniela, obtener_quinielas, obtener_quiniela_por_id,
      eliminar_quiniela, obtener_estadisticas, hav]

/-- Witness for C7 at a concrete store. -/
theorem claim_C7_sin_database_url_witness :
    obtener_quiniela_por_id { database_url := none }
      { rows := [{ id := 1, fecha_generacion := 0, num_partidos := 0, datos := [] }],
        nextId := 2 } 1 = none :=
  (claim_C7_sin_database_url { database_url := none } rfl
    { rows := [{ id := 1, fecha_generacion := 0, num_partidos := 0, datos := [] }],
      nextId := 2 } 0 [] 50 1).2.2.1

/-- C8: deletion is idempotent in effect — deleting an identifier absent
from the table reports `False` and leaves the table unchanged, and after
any deletion a retrieval of the deleted identifier yields `None`. -/
theorem claim_C8_eliminar_quiniela (db : QuinielaDatabase) (store : DBStore) (qid : Nat)
    (hav : db.db_available = true) :
    ((∀ r ∈ store.rows, r.id ≠ qid) → eliminar_quiniela db store qid = (false, store)) ∧
    obtener_quiniela_por_id db (eliminar_quiniela db store qid).2 qid = none := by
  constructor
  · intro habs
    have hfil : store.rows.filter (fun r => !decide (r.id = qid)) = store.rows :=
      List.filter_eq_self.mpr fun r hr => by simpa using habs r hr
    simp [eliminar_quiniela, hav, hfil]
  · have hfind : (store.rows.filter (fun r => !decide (r.id = qid))).find?
        (fun r => decide (r.id = qid)) = none := by
      rw [List.find?_eq_none]
      intro r hr
      have := (List.mem_filter.mp hr).2
      simpa using this
    simp [obtener_quiniela_por_id, eliminar_quiniela, hav, hfind]

/-- Witness for C8: a one-row table, deleting and then retrieving id 1. -/
theorem claim_C8_eliminar_quiniela_witness :
    obtener_quiniela_por_id { database_url := some "postgresql://localhost/progol" }
      ((eliminar_quiniela { database_url := some "postgresql://localhost/progol" }
        { rows := [{ id := 1, fecha_generacion := 0, num_partidos := 0, datos := [] }],
          nextId := 2 } 1).2) 1 = none :=
  (claim_C8_eliminar_quiniela { database_url := some "postgresql://localhost/progol" }
    { rows := [{ id := 1, fecha_generacion := 0, num_partidos := 0, datos := [] }],
      nextId := 2 } 1 rfl).2

end Progol
